import Mathlib

/-!
Verification of the job-state tracking and progress-reporting protocol of the
AutoDBDoc repository.  The definitions below are a shallow embedding of
`src/autodbdoc/web_app.py` (the SQLite-backed job tracker: `init_db`,
`update_job_status`, `get_job_status`, `create_job`, the `/generate` handler's
update and the background worker `generate_documentation`) and of the progress
callbacks emitted by `src/autodbdoc/doc_generator.py`
(`DocGenerator.generate_documentation`).

The SQLite `jobs` table is modelled as a list of rows; `CURRENT_TIMESTAMP` is
modelled by an explicit `now : Nat` argument that callers advance by one per
operation.  The retry loop around every store operation is modelled by an
explicit attempt function together with the loop counter, the log lines it
produces and the milliseconds it sleeps.
-/

set_option linter.unusedVariables false

namespace AutoDBDoc

/-- One row of the `jobs` table created by `init_db` in `web_app.py`:
`job_id TEXT PRIMARY KEY, status TEXT NOT NULL, message TEXT,
current INTEGER DEFAULT 0, total INTEGER DEFAULT 0, filename TEXT,
created_at TIMESTAMP, updated_at TIMESTAMP` plus the audit columns. -/
structure Job where
  job_id : String
  status : String
  message : Option String
  current : Int
  total : Int
  filename : Option String
  created_at : Nat
  updated_at : Nat
  user_ip : Option String
  user_agent : Option String
  connection_type : Option String
  host : Option String
  port : Option Int
  service_name : Option String
  username : Option String
  request_data : Option String
deriving Repr, DecidableEq

/-- The persisted `jobs` table: a list of rows. -/
abbrev Store := List Job

/-- The fields of `get_request_info` that `create_job` actually reads
(`request_info.get` of the ip and the user agent). -/
structure RequestInfo where
  ip : Option String
  user_agent : Option String
deriving Repr, DecidableEq

/-- The connection-parameter fields that `create_job` reads with
`connection_params.get` (the password is never stored). -/
structure ConnectionParams where
  connection_type : Option String
  host : Option String
  port : Option Int
  service_name : Option String
  username : Option String
deriving Repr, DecidableEq

/-- Rendering of an optional string the way `json.dumps` renders a possibly
absent dictionary value. -/
def jsonStringOpt : Option String → String
  | some s => "\"" ++ s ++ "\""
  | none => "null"

/-- Rendering of an optional integer the way `json.dumps` renders it. -/
def jsonIntOpt : Option Int → String
  | some n => toString n
  | none => "null"

/-- The `request_data` column value: `json.dumps(request_data)` built by
`create_job` from the connection parameters (no password). -/
def requestDataJson (cp : ConnectionParams) : String :=
  "\x7b\"connection_type\": " ++ jsonStringOpt cp.connection_type ++
  ", \"host\": " ++ jsonStringOpt cp.host ++
  ", \"port\": " ++ jsonIntOpt cp.port ++
  ", \"service_name\": " ++ jsonStringOpt cp.service_name ++
  ", \"username\": " ++ jsonStringOpt cp.username ++ "\x7d"

/-- The row inserted by `create_job`: status `running`, message
`Initializing...`, `current = 0`, `total = 0`, no filename, both timestamps
defaulted to the current time, audit columns from the request. -/
def newJob (jid : String) (now : Nat) (ri : RequestInfo) (cp : ConnectionParams) : Job :=
  { job_id := jid
    status := "running"
    message := some "Initializing..."
    current := 0
    total := 0
    filename := none
    created_at := now
    updated_at := now
    user_ip := ri.ip
    user_agent := ri.user_agent
    connection_type := cp.connection_type
    host := cp.host
    port := cp.port
    service_name := cp.service_name
    username := cp.username
    request_data := some (requestDataJson cp) }

/-- Core of `get_job_status` (one successful attempt): `SELECT * FROM jobs
WHERE job_id = ?` followed by `fetchone`; `dict(job)` if a row matched,
`None` otherwise. -/
def get_job_status (s : Store) (jid : String) : Option Job :=
  s.find? (fun j => j.job_id == jid)

/-- Effect of the SQL `UPDATE` built by `update_job_status` on a single row:
`status` and `updated_at` are always in the `SET` list; `message`, `current`,
`total` and `filename` are added only when the corresponding Python argument
is not `None`. -/
def applyUpdate (st : String) (msg : Option String) (cur tot : Option Int)
    (fn : Option String) (now : Nat) (j : Job) : Job :=
  { j with
      status := st
      updated_at := now
      message := match msg with | some m => some m | none => j.message
      current := match cur with | some c => c | none => j.current
      total := match tot with | some t => t | none => j.total
      filename := match fn with | some f => some f | none => j.filename }

/-- Core of `update_job_status` (one successful attempt): the `UPDATE jobs
SET ... WHERE job_id = ?` statement, which rewrites every row whose `job_id`
matches and leaves every other row (and a store with no matching row)
unchanged. -/
def update_job_status (s : Store) (now : Nat) (jid st : String)
    (msg : Option String) (cur tot : Option Int) (fn : Option String) : Store :=
  s.map (fun j => if j.job_id == jid then applyUpdate st msg cur tot fn now j else j)

/-- Core of `create_job` (one successful attempt): an existence check on
`job_id` — if a row exists the call is a silent no-op (a warning is logged) —
otherwise the `INSERT` of the fresh row. -/
def create_job (s : Store) (now : Nat) (jid : String)
    (ri : RequestInfo) (cp : ConnectionParams) : Store :=
  if s.any (fun j => j.job_id == jid) then s
  else s ++ [newJob jid now ri cp]

/-! ### The retry loop

Every store operation in `web_app.py` wraps its body in
`while retry_count < max_retries: try ... except sqlite3.OperationalError`,
with `max_retries = 3`, a `time.sleep(0.1)` (100 ms) before every retry and a
final `raise` (after an error log) when the count reaches the bound. -/

/-- Result of a retried store operation: the value or the re-raised error,
the log lines emitted, and the total milliseconds slept between attempts. -/
structure RetryResult (α : Type) where
  result : Except String α
  log : List String
  sleptMs : Nat
deriving Repr

/-- The retry loop of `update_job_status` / `get_job_status` / `create_job`.
`fuel` is `maxRetries - rc`, so the fuel-zero branch is the loop falling
through its condition, which the `raise` at `rc + 1 = maxRetries` makes
unreachable when the loop is entered with positive fuel. -/
def retryGo (α : Type) (name : String) (maxRetries : Nat)
    (attempt : Nat → Except String α) :
    Nat → Nat → List String → Nat → RetryResult α
  | 0, _, log, slept => ⟨Except.error "loop exited", log, slept⟩
  | fuel + 1, rc, log, slept =>
    match attempt rc with
    | Except.ok v => ⟨Except.ok v, log, slept⟩
    | Except.error e =>
      if rc + 1 = maxRetries then
        ⟨Except.error e,
          log ++ ["Failed to " ++ name ++ " after " ++ toString maxRetries ++
            " retries: " ++ e],
          slept⟩
      else
        retryGo α name maxRetries attempt fuel (rc + 1)
          (log ++ ["Database locked, retrying (" ++ toString (rc + 1) ++ "/" ++
            toString maxRetries ++ ")..."])
          (slept + 100)

/-- A full retried operation: three attempts starting at retry count zero. -/
def runWithRetry (α : Type) (name : String) (attempt : Nat → Except String α) :
    RetryResult α :=
  retryGo α name 3 attempt 3 0 [] 0

/-- One attempt against the store: a `sqlite3.OperationalError`
(`database is locked`) when the store is busy on this attempt, the pure
result otherwise. -/
def opAttempt (α : Type) (busy : Nat → Bool) (run : α) : Nat → Except String α :=
  fun k => if busy k then Except.error "database is locked" else Except.ok run

/-- Retry-wrapped `update_job_status`, against a store whose busy attempts
are given by `busy`. -/
def update_job_status_retry (busy : Nat → Bool) (s : Store) (now : Nat)
    (jid st : String) (msg : Option String) (cur tot : Option Int)
    (fn : Option String) : RetryResult Store :=
  runWithRetry Store "update job status"
    (opAttempt Store busy (update_job_status s now jid st msg cur tot fn))

/-- Retry-wrapped `get_job_status`. -/
def get_job_status_retry (busy : Nat → Bool) (s : Store) (jid : String) :
    RetryResult (Option Job) :=
  runWithRetry (Option Job) "get job status"
    (opAttempt (Option Job) busy (get_job_status s jid))

/-- Retry-wrapped `create_job`. -/
def create_job_retry (busy : Nat → Bool) (s : Store) (now : Nat) (jid : String)
    (ri : RequestInfo) (cp : ConnectionParams) : RetryResult Store :=
  runWithRetry Store "create job"
    (opAttempt Store busy (create_job s now jid ri cp))

/-! ### Progress events of `DocGenerator.generate_documentation`

`doc_generator.py` invokes the injected `progress_callback` at fixed
milestones: the starting message, the title page, the table index, one event
per selected table (`enumerate(tables, 1)`), the save and the completion. -/

/-- One `(message, current, total)` progress event. -/
structure ProgressEvent where
  message : String
  current : Int
  total : Int
deriving Repr, DecidableEq

/-- The per-table events of the `for i, table in enumerate(tables, 1)` loop:
`callback(f'Processing table {i}/{total_tables}: {table}', i, total_tables)`,
with `i` the 1-based position. -/
def tableEvents (tot : Nat) : Nat → List String → List ProgressEvent
  | _, [] => []
  | i, t :: rest =>
    { message := "Processing table " ++ toString i ++ "/" ++ toString tot ++
        ": " ++ t
      current := (i : Int)
      total := (tot : Int) } :: tableEvents tot (i + 1) rest

/-- The three fixed milestones emitted before the per-table loop: the
starting message, the title page and the table index. -/
def openingEvents : List ProgressEvent :=
  [{ message := "Starting documentation generation", current := 0, total := 100 },
   { message := "Created title page", current := 0, total := 100 },
   { message := "Created table index", current := 0, total := 100 }]

/-- The two fixed milestones emitted after the per-table loop: the save and
the completion message. -/
def closingEvents : List ProgressEvent :=
  [{ message := "Saving document...", current := 100, total := 100 },
   { message := "Documentation completed", current := 100, total := 100 }]

/-- The full ordered event sequence of a successful
`DocGenerator.generate_documentation` run over `tables`. -/
def docGenEvents (tables : List String) : List ProgressEvent :=
  openingEvents ++ tableEvents tables.length 1 tables ++ closingEvents

/-! ### The background worker `generate_documentation` in `web_app.py`

The worker's only tracker effect is the sequence of `update_job_status`
calls it issues; each call is recorded as the argument tuple passed
(after `job_id`). -/

/-- The argument tuple of one `update_job_status` call: the mandatory status
and the four optional keyword arguments. -/
structure UpdateCall where
  status : String
  message : Option String
  current : Option Int
  total : Option Int
  filename : Option String
deriving Repr, DecidableEq

/-- Application of one recorded call to the store. -/
def applyCall (s : Store) (now : Nat) (jid : String) (c : UpdateCall) : Store :=
  update_job_status s now jid c.status c.message c.current c.total c.filename

/-- Application of a sequence of calls, the clock advancing by one per call. -/
def applyCalls (jid : String) : Store → Nat → List UpdateCall → Store
  | s, _, [] => s
  | s, now, c :: cs => applyCalls jid (applyCall s now jid c) (now + 1) cs

/-- The same fold at the level of a single row. -/
def applyCallsJob : Job → Nat → List UpdateCall → Job
  | j, _, [] => j
  | j, now, c :: cs =>
    applyCallsJob (applyUpdate c.status c.message c.current c.total c.filename now j)
      (now + 1) cs

/-- The worker's first update after `OracleDBReader` connects:
`status='running', message='Connected to database', current=5, total=100`. -/
def connectedCall : UpdateCall :=
  { status := "running", message := some "Connected to database"
    current := some 5, total := some 100, filename := none }

/-- The update issued by the worker's `progress_callback` for one event:
`status='running'` with the event's message, current and total. -/
def callOfEvent (e : ProgressEvent) : UpdateCall :=
  { status := "running", message := some e.message
    current := some e.current, total := some e.total, filename := none }

/-- The worker's final update on success: `status='completed',
message='Documentation generated successfully', current=100, total=100,
filename=<returned filename>`. -/
def completedCall (fname : String) : UpdateCall :=
  { status := "completed", message := some "Documentation generated successfully"
    current := some 100, total := some 100, filename := some fname }

/-- The update issued by the worker's outer `except` handler:
`status='error', message=f"Error: {str(e)}", current=0, total=100`. -/
def errorCall (m : String) : UpdateCall :=
  { status := "error", message := some ("Error: " ++ m)
    current := some 0, total := some 100, filename := none }

/-- The update issued by the `/generate` HTTP handler before it spawns the
worker thread: `status='starting',
message='Starting documentation generation...', current=0, total=100`. -/
def startingCall : UpdateCall :=
  { status := "starting", message := some "Starting documentation generation..."
    current := some 0, total := some 100, filename := none }

/-- The updates issued inside the worker's `try` block before the terminal
`completed` update: the connected update followed by one update per progress
event. -/
def preCompletedCalls (tables : List String) : List UpdateCall :=
  connectedCall :: (docGenEvents tables).map callOfEvent

/-- Outcome of one background generation run: full success (including the
post-completion cleanup), an exception raised by `cleanup_old_files` after
the `completed` update, or an exception raised after `k` of the pre-completed
updates (reader connection failure, assembly failure, save failure). -/
inductive RunOutcome where
  | success (fname : String)
  | cleanupFail (fname : String) (msg : String)
  | genFail (k : Nat) (msg : String)
deriving Repr, DecidableEq

/-- The full sequence of `update_job_status` calls one worker run issues,
per outcome: on success everything up to the `completed` update; when cleanup
throws, additionally the outer handler's `error` update; when generation
throws after `k` updates, the performed prefix followed by the `error`
update. -/
def workerCalls (tables : List String) : RunOutcome → List UpdateCall
  | RunOutcome.success f => preCompletedCalls tables ++ [completedCall f]
  | RunOutcome.cleanupFail f m =>
    preCompletedCalls tables ++ [completedCall f] ++ [errorCall m]
  | RunOutcome.genFail k m => (preCompletedCalls tables).take k ++ [errorCall m]

/-- Terminal statuses per the spec glossary. -/
def isTerminal (st : String) : Bool :=
  st == "completed" || st == "error"

/-- Selects the `current` value of an update when its status is
non-terminal. -/
def nonTerminalPick (c : UpdateCall) : Option Int :=
  if isTerminal c.status then none else c.current

/-- The `current` values written by the worker's non-terminal (`running` /
`starting`) updates during one run, in order. -/
def nonTerminalCurrents (tables : List String) (o : RunOutcome) : List Int :=
  (workerCalls tables o).filterMap nonTerminalPick

/-- The tracker mutation performed by the `/generate` HTTP handler
(`start_generation`) once its existence check on `job_id` passes: the
`starting` update, issued unconditionally — the handler never inspects the
current status. -/
def start_generation_update (s : Store) (now : Nat) (jid : String) : Store :=
  applyCall s now jid startingCall

/-- A reachable store: a job is created by the form handler, `/generate` is
invoked (existence check passes, `starting` update, worker spawned), and the
worker run succeeds, ending with the terminal `completed` update. -/
def storeAfterSuccess : Store :=
  applyCalls "j1"
    (start_generation_update
      (create_job [] 0 "j1" ⟨none, none⟩ ⟨none, none, none, none, none⟩) 1 "j1")
    2 (workerCalls ["T"] (RunOutcome.success "report.docx"))

/-- The store after a client posts `/generate` again for the same, already
completed, job: the handler's existence check passes and it issues the
`starting` update on the terminal row. -/
def storeAfterRegenerate : Store :=
  start_generation_update storeAfterSuccess 20 "j1"

/-! ### Field-wise last-write-wins merge (specification-side description)

These describe the result of a sequence of partial updates: each field takes
the value of the last call that supplied it, or the prior value when no call
did. -/

/-- Last supplied value over a nullable column, starting from its prior
value. -/
def lastWriteOpt (α : Type) (init : Option α) (writes : List (Option α)) : Option α :=
  writes.foldl (fun acc o => match o with | some v => some v | none => acc) init

/-- Last supplied value over a non-null column, starting from its prior
value. -/
def lastWriteVal (α : Type) (init : α) (writes : List (Option α)) : α :=
  writes.foldl (fun acc o => match o with | some v => v | none => acc) init

/-- The status after a call sequence: every call supplies `status`, so the
last call wins (the prior value when the sequence is empty). -/
def lastStatus (init : String) (cs : List UpdateCall) : String :=
  cs.foldl (fun acc c => c.status) init

theorem lastWriteOpt_concat (α : Type) (init : Option α) (l : List (Option α))
    (v : α) : lastWriteOpt α init (l ++ [some v]) = some v := by
  simp [lastWriteOpt, List.foldl_append]

theorem lastWriteVal_concat (α : Type) (init : α) (l : List (Option α))
    (v : α) : lastWriteVal α init (l ++ [some v]) = v := by
  simp [lastWriteVal, List.foldl_append]

theorem lastStatus_concat (init : String) (l : List UpdateCall) (c : UpdateCall) :
    lastStatus init (l ++ [c]) = c.status := by
  simp [lastStatus, List.foldl_append]

theorem lastWriteOpt_cons (α : Type) (init x : Option α) (l : List (Option α)) :
    lastWriteOpt α init (x :: l) =
      lastWriteOpt α (match x with | some v => some v | none => init) l := rfl

theorem lastWriteVal_cons (α : Type) (init : α) (x : Option α) (l : List (Option α)) :
    lastWriteVal α init (x :: l) =
      lastWriteVal α (match x with | some v => v | none => init) l := rfl

theorem lastWriteOpt_all_none (α : Type) (l : List (Option α))
    (h : ∀ o ∈ l, o = none) : ∀ init, lastWriteOpt α init l = init := by
  induction l with
  | nil => intro init; rfl
  | cons o rest ih =>
    intro init
    have ho : o = none := h o (List.mem_cons_self o rest)
    have hrest : ∀ o ∈ rest, o = none := fun x hx => h x (List.mem_cons_of_mem o hx)
    subst ho
    simpa [lastWriteOpt] using ih hrest init

/-! ### Store-level and row-level behaviour of the tracker operations -/

theorem applyUpdate_job_id (st : String) (msg : Option String)
    (cur tot : Option Int) (fn : Option String) (now : Nat) (j : Job) :
    (applyUpdate st msg cur tot fn now j).job_id = j.job_id := rfl

/-- Reading back a job after a single update: the matching row (if any) is
rewritten by the update, and only that row is read. -/
theorem get_update (s : Store) (now : Nat) (jid st : String)
    (msg : Option String) (cur tot : Option Int) (fn : Option String) :
    get_job_status (update_job_status s now jid st msg cur tot fn) jid =
      (get_job_status s jid).map (applyUpdate st msg cur tot fn now) := by
  induction s with
  | nil => rfl
  | cons j rest ih =>
    simp only [update_job_status, List.map_cons, get_job_status] at ih ⊢
    cases h : (j.job_id == jid) with
    | true => simp [List.find?_cons, applyUpdate_job_id, h]
    | false => simpa [List.find?_cons, applyUpdate_job_id, h] using ih

/-- Reading back a job after a sequence of updates. -/
theorem get_applyCalls (cs : List UpdateCall) : ∀ (s : Store) (now : Nat)
    (jid : String),
    get_job_status (applyCalls jid s now cs) jid =
      (get_job_status s jid).map (fun j => applyCallsJob j now cs) := by
  induction cs with
  | nil =>
    intro s now jid
    simp [applyCalls, applyCallsJob]
  | cons c cs ih =>
    intro s now jid
    simp only [applyCalls]
    rw [ih, applyCall, get_update, Option.map_map]
    rfl

theorem applyCallsJob_job_id (cs : List UpdateCall) : ∀ (j : Job) (now : Nat),
    (applyCallsJob j now cs).job_id = j.job_id := by
  induction cs with
  | nil => intro j now; rfl
  | cons c cs ih =>
    intro j now
    simpa [applyCallsJob] using ih _ (now + 1)

theorem applyCallsJob_created_at (cs : List UpdateCall) : ∀ (j : Job) (now : Nat),
    (applyCallsJob j now cs).created_at = j.created_at := by
  induction cs with
  | nil => intro j now; rfl
  | cons c cs ih =>
    intro j now
    simpa [applyCallsJob] using ih _ (now + 1)

theorem applyCallsJob_status (cs : List UpdateCall) : ∀ (j : Job) (now : Nat),
    (applyCallsJob j now cs).status = lastStatus j.status cs := by
  induction cs with
  | nil => intro j now; rfl
  | cons c cs ih =>
    intro j now
    simpa [applyCallsJob, lastStatus, applyUpdate] using ih _ (now + 1)

theorem applyCallsJob_message (cs : List UpdateCall) : ∀ (j : Job) (now : Nat),
    (applyCallsJob j now cs).message =
      lastWriteOpt String j.message (cs.map (fun c => c.message)) := by
  induction cs with
  | nil => intro j now; rfl
  | cons c cs ih =>
    intro j now
    have h := ih (applyUpdate c.status c.message c.current c.total c.filename now j)
      (now + 1)
    simp only [applyCallsJob]
    rw [h, List.map_cons, lastWriteOpt_cons]
    congr 1
    cases hm : c.message <;> simp [applyUpdate, hm]

theorem applyCallsJob_current (cs : List UpdateCall) : ∀ (j : Job) (now : Nat),
    (applyCallsJob j now cs).current =
      lastWriteVal Int j.current (cs.map (fun c => c.current)) := by
  induction cs with
  | nil => intro j now; rfl
  | cons c cs ih =>
    intro j now
    have h := ih (applyUpdate c.status c.message c.current c.total c.filename now j)
      (now + 1)
    simp only [applyCallsJob]
    rw [h, List.map_cons, lastWriteVal_cons]
    congr 1
    cases hm : c.current <;> simp [applyUpdate, hm]

theorem applyCallsJob_total (cs : List UpdateCall) : ∀ (j : Job) (now : Nat),
    (applyCallsJob j now cs).total =
      lastWriteVal Int j.total (cs.map (fun c => c.total)) := by
  induction cs with
  | nil => intro j now; rfl
  | cons c cs ih =>
    intro j now
    have h := ih (applyUpdate c.status c.message c.current c.total c.filename now j)
      (now + 1)
    simp only [applyCallsJob]
    rw [h, List.map_cons, lastWriteVal_cons]
    congr 1
    cases hm : c.total <;> simp [applyUpdate, hm]

theorem applyCallsJob_filename (cs : List UpdateCall) : ∀ (j : Job) (now : Nat),
    (applyCallsJob j now cs).filename =
      lastWriteOpt String j.filename (cs.map (fun c => c.filename)) := by
  induction cs with
  | nil => intro j now; rfl
  | cons c cs ih =>
    intro j now
    have h := ih (applyUpdate c.status c.message c.current c.total c.filename now j)
      (now + 1)
    simp only [applyCallsJob]
    rw [h, List.map_cons, lastWriteOpt_cons]
    congr 1
    cases hm : c.filename <;> simp [applyUpdate, hm]

theorem applyCallsJob_updated_at (cs : List UpdateCall) : ∀ (j : Job) (now : Nat),
    cs ≠ [] → (applyCallsJob j now cs).updated_at = now + cs.length - 1 := by
  induction cs with
  | nil => intro j now h; exact absurd rfl h
  | cons c cs ih =>
    intro j now _
    cases cs with
    | nil => simp [applyCallsJob, applyUpdate]
    | cons c' cs' =>
      have := ih (applyUpdate c.status c.message c.current c.total c.filename now j)
        (now + 1) (by simp)
      simp only [applyCallsJob] at this ⊢
      rw [this]
      simp
      omega

theorem applyCallsJob_append (l₁ l₂ : List UpdateCall) : ∀ (j : Job) (now : Nat),
    applyCallsJob j now (l₁ ++ l₂) =
      applyCallsJob (applyCallsJob j now l₁) (now + l₁.length) l₂ := by
  induction l₁ with
  | nil => intro j now; simp [applyCallsJob]
  | cons c l₁ ih =>
    intro j now
    have step : applyCallsJob j now ((c :: l₁) ++ l₂) =
        applyCallsJob
          (applyUpdate c.status c.message c.current c.total c.filename now j)
          (now + 1) (l₁ ++ l₂) := rfl
    have step2 : applyCallsJob j now (c :: l₁) =
        applyCallsJob
          (applyUpdate c.status c.message c.current c.total c.filename now j)
          (now + 1) l₁ := rfl
    have hl : (c :: l₁).length = l₁.length + 1 := List.length_cons c l₁
    have harith : now + (c :: l₁).length = (now + 1) + l₁.length := by omega
    rw [step, ih, step2, harith]

/-- After any `create_job` call for `jid`, a row for `jid` exists. -/
theorem create_job_any (s : Store) (now : Nat) (jid : String)
    (ri : RequestInfo) (cp : ConnectionParams) :
    (create_job s now jid ri cp).any (fun j => j.job_id == jid) = true := by
  unfold create_job
  by_cases h : s.any (fun j => j.job_id == jid) = true
  · rw [if_pos h]; exact h
  · rw [if_neg h]
    simp [List.any_append, newJob]

/-- Reading a freshly created job back: when no row for `jid` existed,
`create_job` inserts exactly the `newJob` row and `get_job_status`
returns it. -/
theorem get_create_new (s : Store) (now : Nat) (jid : String)
    (ri : RequestInfo) (cp : ConnectionParams)
    (h : s.any (fun j => j.job_id == jid) = false) :
    get_job_status (create_job s now jid ri cp) jid = some (newJob jid now ri cp) := by
  have hnone : get_job_status s jid = none := by
    unfold get_job_status
    rw [List.find?_eq_none]
    simp only [List.any_eq_false] at h
    intro x hx
    simpa using h x hx
  unfold create_job
  rw [if_neg (by simp [h])]
  unfold get_job_status at hnone ⊢
  rw [List.find?_append, hnone]
  simp [newJob]

/-! ### Claim theorems -/

/-- C4: for every call to `create`, `update`, or `get` against a store that
raises a transient store-busy error, failing the first two attempts and
succeeding on the third yields success with no error observed by the caller
(after 200 ms of backoff, 100 ms per retry); failing all three attempts
(the fixed bound of 3) re-raises the error to the caller after logging the
operation name and the retry count — it is never silently swallowed. -/
theorem c4_retry_policy (s : Store) (now : Nat) (jid st : String)
    (msg : Option String) (cur tot : Option Int) (fn : Option String)
    (ri : RequestInfo) (cp : ConnectionParams) :
    (update_job_status_retry (fun k => decide (k < 2)) s now jid st msg cur tot fn).result
        = Except.ok (update_job_status s now jid st msg cur tot fn) ∧
    (create_job_retry (fun k => decide (k < 2)) s now jid ri cp).result
        = Except.ok (create_job s now jid ri cp) ∧
    (get_job_status_retry (fun k => decide (k < 2)) s jid).result
        = Except.ok (get_job_status s jid) ∧
    (update_job_status_retry (fun k => decide (k < 2)) s now jid st msg cur tot fn).sleptMs
        = 200 ∧
    (update_job_status_retry (fun _ => true) s now jid st msg cur tot fn).result
        = Except.error "database is locked" ∧
    (update_job_status_retry (fun _ => true) s now jid st msg cur tot fn).log
        = ["Database locked, retrying (1/3)...",
           "Database locked, retrying (2/3)...",
           "Failed to update job status after 3 retries: database is locked"] ∧
    (create_job_retry (fun _ => true) s now jid ri cp).result
        = Except.error "database is locked" ∧
    (create_job_retry (fun _ => true) s now jid ri cp).log
        = ["Database locked, retrying (1/3)...",
           "Database locked, retrying (2/3)...",
           "Failed to create job after 3 retries: database is locked"] ∧
    (get_job_status_retry (fun _ => true) s jid).result
        = Except.error "database is locked" ∧
    (get_job_status_retry (fun _ => true) s jid).log
        = ["Database locked, retrying (1/3)...",
           "Database locked, retrying (2/3)...",
           "Failed to get job status after 3 retries: database is locked"] ∧
    (update_job_status_retry (fun _ => true) s now jid st msg cur tot fn).sleptMs
        = 200 :=
  ⟨rfl, rfl, rfl, rfl, rfl, rfl, rfl, rfl, rfl, rfl, rfl⟩

/-- C9: for every `job_id` with no row in the store, `get` returns the
absence value `none` — distinct from any job status — and does not raise
(its result is `ok`, and nothing is logged), assuming the store itself does
not fail. -/
theorem c9_get_absent_returns_none (s : Store) (jid : String)
    (habs : ∀ j ∈ s, (j.job_id == jid) = false) :
    (get_job_status_retry (fun _ => false) s jid).result = Except.ok none ∧
    (get_job_status_retry (fun _ => false) s jid).log = [] := by
  have hnone : get_job_status s jid = none := by
    unfold get_job_status
    rw [List.find?_eq_none]
    intro x hx
    simp [habs x hx]
  have hrun : get_job_status_retry (fun _ => false) s jid =
      ⟨Except.ok (get_job_status s jid), [], 0⟩ := rfl
  rw [hrun, hnone]
  exact ⟨rfl, rfl⟩

/-- Witness for C9 at the empty store. -/
theorem c9_witness :
    (get_job_status_retry (fun _ => false) ([] : Store) "j1").result
        = Except.ok none ∧
    (get_job_status_retry (fun _ => false) ([] : Store) "j1").log = [] :=
  c9_get_absent_returns_none [] "j1" (by intro j hj; cases hj)

/-- C10: for every `job_id` with no row in the store, `update` completes
without error and leaves the store unchanged — the `UPDATE` statement
matches zero rows, creates nothing, and the caller sees the same successful
return as for a real update. -/
theorem c10_update_missing_id_noop (s : Store) (now : Nat) (jid st : String)
    (msg : Option String) (cur tot : Option Int) (fn : Option String)
    (habs : ∀ j ∈ s, (j.job_id == jid) = false) :
    update_job_status s now jid st msg cur tot fn = s ∧
    (update_job_status_retry (fun _ => false) s now jid st msg cur tot fn).result
        = Except.ok s := by
  have hup : update_job_status s now jid st msg cur tot fn = s := by
    unfold update_job_status
    have hcong : ∀ j ∈ s,
        (if j.job_id == jid then applyUpdate st msg cur tot fn now j else j) = j := by
      intro j hj
      rw [habs j hj]
      simp
    rw [List.map_congr_left hcong]
    exact List.map_id' s
  have hrun : update_job_status_retry (fun _ => false) s now jid st msg cur tot fn =
      ⟨Except.ok (update_job_status s now jid st msg cur tot fn), [], 0⟩ := rfl
  refine ⟨hup, ?_⟩
  rw [hrun, hup]

/-- Witness for C10 at a one-row store with a different id. -/
theorem c10_witness :
    update_job_status [newJob "other" 0 ⟨none, none⟩ ⟨none, none, none, none, none⟩]
        1 "j1" "error" none none none none
      = [newJob "other" 0 ⟨none, none⟩ ⟨none, none, none, none, none⟩] ∧
    (update_job_status_retry (fun _ => false)
        [newJob "other" 0 ⟨none, none⟩ ⟨none, none, none, none, none⟩]
        1 "j1" "error" none none none none).result
      = Except.ok [newJob "other" 0 ⟨none, none⟩ ⟨none, none, none, none, none⟩] :=
  c10_update_missing_id_noop _ 1 "j1" "error" none none none none
    (by intro j hj; simp at hj; subst hj; decide)

/-- C6: calling `create` twice with the same id leaves the store exactly as
after the first call — the second call is a silent no-op (only a warning is
logged), not a failure — and `create` preserves the at-most-one-row-per-id
invariant. -/
theorem c6_create_idempotent (s : Store) (t0 t1 : Nat) (jid : String)
    (ri ri' : RequestInfo) (cp cp' : ConnectionParams) :
    create_job (create_job s t0 jid ri cp) t1 jid ri' cp' = create_job s t0 jid ri cp ∧
    (∀ i : String, s.countP (fun j => j.job_id == i) ≤ 1 →
      (create_job s t0 jid ri cp).countP (fun j => j.job_id == i) ≤ 1) := by
  constructor
  · have hany := create_job_any s t0 jid ri cp
    set s1 := create_job s t0 jid ri cp with hs1
    unfold create_job
    rw [if_pos hany]
  · intro i hle
    unfold create_job
    by_cases h : s.any (fun j => j.job_id == jid) = true
    · rw [if_pos h]; exact hle
    · rw [if_neg h]
      rw [List.countP_append]
      simp only [Bool.not_eq_true] at h
      by_cases hij : (jid == i) = true
      · have hiq : jid = i := by simpa using hij
        subst hiq
        have h0 : s.countP (fun j => j.job_id == jid) = 0 := by
          rw [List.countP_eq_zero]
          simp only [List.any_eq_false] at h
          intro a ha
          simpa using h a ha
        rw [h0]
        simp [List.countP_cons, newJob]
      · have hnew : ((newJob jid t0 ri cp).job_id == i) = false := by
          simpa [newJob] using hij
        have h1 : List.countP (fun j => j.job_id == i) [newJob jid t0 ri cp] = 0 := by
          simp [List.countP_cons, hnew]
        omega

/-- Witness for C6: a concrete double create on the empty store. -/
theorem c6_witness :
    create_job (create_job [] 0 "j1" ⟨some "ip", none⟩ ⟨some "basic", none, none, none, none⟩)
        1 "j1" ⟨none, none⟩ ⟨none, none, none, none, none⟩
      = create_job [] 0 "j1" ⟨some "ip", none⟩ ⟨some "basic", none, none, none, none⟩ ∧
    ((create_job [] 0 "j1" ⟨some "ip", none⟩
        ⟨some "basic", none, none, none, none⟩).countP
          (fun j => j.job_id == "j1") ≤ 1) :=
  ⟨(c6_create_idempotent [] 0 1 "j1" ⟨some "ip", none⟩ ⟨none, none⟩
      ⟨some "basic", none, none, none, none⟩ ⟨none, none, none, none, none⟩).1,
   (c6_create_idempotent [] 0 1 "j1" ⟨some "ip", none⟩ ⟨none, none⟩
      ⟨some "basic", none, none, none, none⟩ ⟨none, none, none, none, none⟩).2
     "j1" (by decide)⟩

/-- C3: `update` is a partial update — `status` (supplied by every call,
since it is a mandatory argument) is always written, each supplied optional
field is written, each omitted field retains its prior value, and
`updated_at` is refreshed on every call; consequently, for any sequence of
`update` calls on the same job (disjoint supplied field sets included), the
final row is the field-wise last-write-wins merge of the calls over the
prior row. -/
theorem c3_partial_update_merge (s : Store) (jid : String) (j : Job) (now : Nat)
    (cs : List UpdateCall) (hget : get_job_status s jid = some j) :
    get_job_status (applyCalls jid s now cs) jid = some (applyCallsJob j now cs) ∧
    (applyCallsJob j now cs).status = lastStatus j.status cs ∧
    (applyCallsJob j now cs).message =
      lastWriteOpt String j.message (cs.map (fun c => c.message)) ∧
    (applyCallsJob j now cs).current =
      lastWriteVal Int j.current (cs.map (fun c => c.current)) ∧
    (applyCallsJob j now cs).total =
      lastWriteVal Int j.total (cs.map (fun c => c.total)) ∧
    (applyCallsJob j now cs).filename =
      lastWriteOpt String j.filename (cs.map (fun c => c.filename)) ∧
    (applyCallsJob j now cs).job_id = j.job_id ∧
    (applyCallsJob j now cs).created_at = j.created_at ∧
    (cs ≠ [] → (applyCallsJob j now cs).updated_at = now + cs.length - 1) := by
  refine ⟨?_, applyCallsJob_status cs j now, applyCallsJob_message cs j now,
    applyCallsJob_current cs j now, applyCallsJob_total cs j now,
    applyCallsJob_filename cs j now, applyCallsJob_job_id cs j now,
    applyCallsJob_created_at cs j now,
    fun h => applyCallsJob_updated_at cs j now h⟩
  rw [get_applyCalls, hget]
  rfl

/-- Witness for C3: two updates with disjoint optional field sets on a
freshly created job. -/
theorem c3_witness :
    get_job_status [newJob "j1" 0 ⟨none, none⟩ ⟨none, none, none, none, none⟩] "j1"
      = some (newJob "j1" 0 ⟨none, none⟩ ⟨none, none, none, none, none⟩) ∧
    get_job_status
        (applyCalls "j1" [newJob "j1" 0 ⟨none, none⟩ ⟨none, none, none, none, none⟩] 1
          [⟨"running", some "table A", none, none, none⟩,
           ⟨"running", none, some 2, some 3, none⟩]) "j1"
      = some (applyCallsJob (newJob "j1" 0 ⟨none, none⟩ ⟨none, none, none, none, none⟩) 1
          [⟨"running", some "table A", none, none, none⟩,
           ⟨"running", none, some 2, some 3, none⟩]) := by
  refine ⟨by decide, ?_⟩
  exact (c3_partial_update_merge
    [newJob "j1" 0 ⟨none, none⟩ ⟨none, none, none, none, none⟩] "j1"
    (newJob "j1" 0 ⟨none, none⟩ ⟨none, none, none, none, none⟩) 1
    [⟨"running", some "table A", none, none, none⟩,
     ⟨"running", none, some 2, some 3, none⟩] (by decide)).1

/-- C7: whatever exception the background generation task throws (and
whenever it throws), the worker's outer failure handler leaves the job in the
terminal `error` status with the exception's message (prefixed `Error: `) and
`current = 0`, so a poller observes a terminal failure. -/
theorem c7_error_handler (s : Store) (jid : String) (j : Job) (now : Nat)
    (ts : List String) (m : String) (o : RunOutcome)
    (hget : get_job_status s jid = some j)
    (ho : (∃ k, o = RunOutcome.genFail k m) ∨ ∃ f, o = RunOutcome.cleanupFail f m) :
    ∃ r, get_job_status (applyCalls jid s now (workerCalls ts o)) jid = some r ∧
      r.status = "error" ∧ r.message = some ("Error: " ++ m) ∧
      r.current = 0 ∧ isTerminal r.status = true := by
  have hsplit : ∃ pre, workerCalls ts o = pre ++ [errorCall m] := by
    rcases ho with ⟨k, rfl⟩ | ⟨f, rfl⟩
    · exact ⟨(preCompletedCalls ts).take k, rfl⟩
    · exact ⟨preCompletedCalls ts ++ [completedCall f], rfl⟩
  obtain ⟨pre, hpre⟩ := hsplit
  refine ⟨applyCallsJob j now (workerCalls ts o), ?_, ?_, ?_, ?_, ?_⟩
  · rw [get_applyCalls, hget]
    rfl
  · rw [applyCallsJob_status, hpre, lastStatus_concat]
    rfl
  · rw [applyCallsJob_message, hpre]
    simp only [List.map_append, List.map_cons, List.map_nil]
    have : (errorCall m).message = some ("Error: " ++ m) := rfl
    rw [this, lastWriteOpt_concat]
  · rw [applyCallsJob_current, hpre]
    simp only [List.map_append, List.map_cons, List.map_nil]
    have : (errorCall m).current = some 0 := rfl
    rw [this, lastWriteVal_concat]
  · rw [applyCallsJob_status, hpre, lastStatus_concat]
    rfl

/-- Witness for C7: a generation failure before any update, on a
freshly created job. -/
theorem c7_witness :
    ∃ r, get_job_status
        (applyCalls "j1" [newJob "j1" 0 ⟨none, none⟩ ⟨none, none, none, none, none⟩] 1
          (workerCalls ["T"] (RunOutcome.genFail 0 "boom"))) "j1" = some r ∧
      r.status = "error" ∧ r.message = some ("Error: " ++ "boom") ∧
      r.current = 0 ∧ isTerminal r.status = true :=
  c7_error_handler [newJob "j1" 0 ⟨none, none⟩ ⟨none, none, none, none, none⟩] "j1"
    (newJob "j1" 0 ⟨none, none⟩ ⟨none, none, none, none, none⟩) 1 ["T"] "boom"
    (RunOutcome.genFail 0 "boom") (by decide) (Or.inl ⟨0, rfl⟩)

/-- Every update issued inside the worker's `try` block before the terminal
`completed` update carries status `running`. -/
theorem preCompletedCalls_status (ts : List String) :
    ∀ c ∈ preCompletedCalls ts, c.status = "running" := by
  intro c hc
  simp only [preCompletedCalls, List.mem_cons] at hc
  rcases hc with rfl | hc
  · rfl
  · obtain ⟨e, he, rfl⟩ := List.mem_map.mp hc
    rfl

/-- In a call list whose prefix consists of `running` updates, any call with
a terminal status is the final call. -/
theorem terminal_update_is_final (l : List UpdateCall) (c : UpdateCall)
    (hl : ∀ x ∈ l, x.status = "running") (i : Nat) (hi : i < (l ++ [c]).length)
    (hterm : isTerminal ((l ++ [c]).get ⟨i, hi⟩).status = true) :
    i = (l ++ [c]).length - 1 := by
  rcases Nat.lt_or_ge i l.length with hlt | hge
  · exfalso
    have hget : ((l ++ [c]).get ⟨i, hi⟩) = l.get ⟨i, hlt⟩ := by
      simp [List.getElem_append, hlt]
    rw [hget, hl _ (l.get_mem _ _)] at hterm
    exact absurd hterm (by decide)
  · have hlen : (l ++ [c]).length = l.length + 1 := by simp
    omega

/-- C1 counterexample: the `/generate` handler, reinvoked for an already
completed job, passes its existence check and moves the terminal row back to
`starting` — terminal states are not absorbing under the program's own
reachable call sequences. -/
theorem c1_counterexample :
    (get_job_status storeAfterSuccess "j1").map Job.status = some "completed" ∧
    get_job_status storeAfterSuccess "j1" ≠ none ∧
    (get_job_status storeAfterRegenerate "j1").map Job.status = some "starting" := by
  decide

/-- C1 (amended): the tracker itself never blocks a late update (see the
counterexample), but within one worker run that does not hit a cleanup
failure, a terminal-status update is only ever the run's final update: no
worker-issued update follows `completed` or `error` inside a single run. -/
theorem c1_terminal_last_in_run (ts : List String) (o : RunOutcome)
    (hnc : ∀ f m, o ≠ RunOutcome.cleanupFail f m)
    (i : Nat) (hi : i < (workerCalls ts o).length)
    (hterm : isTerminal ((workerCalls ts o).get ⟨i, hi⟩).status = true) :
    i = (workerCalls ts o).length - 1 := by
  cases o with
  | success f =>
    exact terminal_update_is_final (preCompletedCalls ts) (completedCall f)
      (preCompletedCalls_status ts) i hi hterm
  | cleanupFail f m => exact absurd rfl (hnc f m)
  | genFail k m =>
    exact terminal_update_is_final ((preCompletedCalls ts).take k) (errorCall m)
      (fun x hx => preCompletedCalls_status ts x (List.take_subset k _ hx)) i hi hterm

/-- Witness for C1 (amended): the terminal update of a concrete successful
one-table run sits at the final position. -/
theorem c1_witness :
    (7 : Nat) = (workerCalls ["T"] (RunOutcome.success "report.docx")).length - 1 :=
  c1_terminal_last_in_run ["T"] (RunOutcome.success "report.docx")
    (fun f m h => by cases h) 7 (by decide) (by decide)

/-- No update issued inside the worker's `try` block before the terminal
`completed` update supplies a filename. -/
theorem preCompletedCalls_filename (ts : List String) :
    ∀ c ∈ preCompletedCalls ts, c.filename = none := by
  intro c hc
  simp only [preCompletedCalls, List.mem_cons] at hc
  rcases hc with rfl | hc
  · rfl
  · obtain ⟨e, he, rfl⟩ := List.mem_map.mp hc
    rfl

/-- Taking at most the first list keeps an appended tail out of view. -/
theorem take_append_of_le_len (α : Type) : ∀ (k : Nat) (l₁ l₂ : List α),
    k ≤ l₁.length → (l₁ ++ l₂).take k = l₁.take k := by
  intro k
  induction k with
  | zero => intro l₁ l₂ h; simp
  | succ k ih =>
    intro l₁ l₂ h
    cases l₁ with
    | nil => simp at h
    | cons a l₁ =>
      simp only [List.cons_append, List.take_succ_cons]
      rw [ih l₁ l₂ (by simpa using h)]

/-- Folding calls that never supply a filename and never set status
`completed` over a row with no filename and a non-`completed` status keeps
both facts. -/
theorem applyCallsJob_none_filename : ∀ (cs : List UpdateCall) (j : Job) (now : Nat),
    (∀ c ∈ cs, c.filename = none ∧ c.status ≠ "completed") →
    j.filename = none → j.status ≠ "completed" →
    (applyCallsJob j now cs).filename = none ∧
    (applyCallsJob j now cs).status ≠ "completed" := by
  intro cs
  induction cs with
  | nil => intro j now _ h1 h2; exact ⟨h1, h2⟩
  | cons c cs ih =>
    intro j now hcs h1 h2
    have hc := hcs c (List.mem_cons_self c cs)
    have hA1 : (applyUpdate c.status c.message c.current c.total c.filename now j).filename
        = none := by
      simp [applyUpdate, hc.1, h1]
    have hA2 : (applyUpdate c.status c.message c.current c.total c.filename now j).status
        ≠ "completed" := by
      simpa [applyUpdate] using hc.2
    exact ih _ (now + 1) (fun x hx => hcs x (List.mem_cons_of_mem c hx)) hA1 hA2

/-- C5 counterexample: after `/generate` is reinvoked on a completed job, the
row's filename is still populated while the status is `starting` — filename
non-null no longer implies status `completed` over all reachable rows. -/
theorem c5_counterexample :
    (get_job_status storeAfterRegenerate "j1").map (fun r => r.filename.isSome)
        = some true ∧
    (get_job_status storeAfterRegenerate "j1").map Job.status = some "starting" ∧
    ¬ (get_job_status storeAfterRegenerate "j1").map Job.status = some "completed" := by
  decide

/-- C5 (amended): filename is non-null iff the status is `completed`, for
every row reachable from creation through the `/generate` `starting` update
and any prefix of a single worker run, provided generation is not re-triggered
on a terminal job and the run's cleanup step does not throw. -/
theorem c5_filename_iff_completed (ri : RequestInfo) (cp : ConnectionParams)
    (jid : String) (t0 t1 : Nat) (ts : List String) (o : RunOutcome) (k : Nat)
    (hnc : ∀ f m, o ≠ RunOutcome.cleanupFail f m) (r : Job)
    (hr : get_job_status
        (applyCalls jid (create_job [] t0 jid ri cp) t1
          ((startingCall :: workerCalls ts o).take k)) jid = some r) :
    r.filename.isSome = true ↔ r.status = "completed" := by
  have hcreate : get_job_status (create_job [] t0 jid ri cp) jid
      = some (newJob jid t0 ri cp) := get_create_new [] t0 jid ri cp rfl
  rw [get_applyCalls, hcreate] at hr
  obtain rfl : applyCallsJob (newJob jid t0 ri cp) t1
      ((startingCall :: workerCalls ts o).take k) = r := Option.some.inj hr
  cases o with
  | cleanupFail f m => exact absurd rfl (hnc f m)
  | genFail k' m =>
    have hall : ∀ c ∈ (startingCall :: workerCalls ts (RunOutcome.genFail k' m)).take k,
        c.filename = none ∧ c.status ≠ "completed" := by
      intro c hc
      have hc' := List.mem_of_mem_take hc
      simp only [List.mem_cons] at hc'
      rcases hc' with rfl | hc'
      · exact ⟨rfl, by decide⟩
      · simp only [workerCalls, List.mem_append, List.mem_singleton] at hc'
        rcases hc' with hc' | rfl
        · have hmem := List.mem_of_mem_take hc'
          exact ⟨preCompletedCalls_filename ts c hmem, by
            rw [preCompletedCalls_status ts c hmem]; decide⟩
        · exact ⟨rfl, by simp [errorCall]⟩
    have h := applyCallsJob_none_filename _ (newJob jid t0 ri cp) t1 hall rfl
      (by simp [newJob])
    rw [h.1]
    simp only [Option.isSome_none]
    constructor
    · intro hfalse; cases hfalse
    · intro hs; exact absurd hs h.2
  | success f =>
    have heq : startingCall :: workerCalls ts (RunOutcome.success f)
        = (startingCall :: preCompletedCalls ts) ++ [completedCall f] := by
      simp [workerCalls]
    rcases le_or_lt k (startingCall :: preCompletedCalls ts).length with hk | hk
    · have hshape : (startingCall :: workerCalls ts (RunOutcome.success f)).take k
          = (startingCall :: preCompletedCalls ts).take k := by
        rw [heq, take_append_of_le_len UpdateCall k _ _ hk]
      rw [hshape]
      have hall : ∀ c ∈ (startingCall :: preCompletedCalls ts).take k,
          c.filename = none ∧ c.status ≠ "completed" := by
        intro c hc
        have hc' := List.mem_of_mem_take hc
        simp only [List.mem_cons] at hc'
        rcases hc' with rfl | hc'
        · exact ⟨rfl, by decide⟩
        · exact ⟨preCompletedCalls_filename ts c hc', by
            rw [preCompletedCalls_status ts c hc']; decide⟩
      have h := applyCallsJob_none_filename _ (newJob jid t0 ri cp) t1 hall rfl
        (by simp [newJob])
      rw [h.1]
      simp only [Option.isSome_none]
      constructor
      · intro hfalse; cases hfalse
      · intro hs; exact absurd hs h.2
    · have hfull : (startingCall :: workerCalls ts (RunOutcome.success f)).take k
          = (startingCall :: preCompletedCalls ts) ++ [completedCall f] := by
        rw [heq]
        apply List.take_of_length_le
        have hb : (startingCall :: preCompletedCalls ts).length
            = (preCompletedCalls ts).length + 1 := List.length_cons _ _
        simp only [List.length_append, List.length_cons, List.length_nil]
        omega
      rw [hfull]
      have hfil : (applyCallsJob (newJob jid t0 ri cp) t1
          ((startingCall :: preCompletedCalls ts) ++ [completedCall f])).filename
            = some f := by
        rw [applyCallsJob_filename, List.map_append]
        exact lastWriteOpt_concat String _ _ f
      have hst : (applyCallsJob (newJob jid t0 ri cp) t1
          ((startingCall :: preCompletedCalls ts) ++ [completedCall f])).status
            = "completed" := by
        rw [applyCallsJob_status, lastStatus_concat]
        rfl
      rw [hfil, hst]
      simp

/-- Witness for C5 (amended): the freshly created row (prefix of length 0). -/
theorem c5_witness :
    ((newJob "j1" 0 ⟨none, none⟩ ⟨none, none, none, none, none⟩).filename.isSome = true ↔
      (newJob "j1" 0 ⟨none, none⟩ ⟨none, none, none, none, none⟩).status = "completed") :=
  c5_filename_iff_completed ⟨none, none⟩ ⟨none, none, none, none, none⟩ "j1" 0 1 ["T"]
    (RunOutcome.genFail 0 "x") 0 (fun f m h => by cases h)
    (newJob "j1" 0 ⟨none, none⟩ ⟨none, none, none, none, none⟩) (by decide)

/-- Picking non-terminal currents out of the callback-generated calls keeps
exactly the events' `current` values (every callback update is `running`). -/
theorem filterMapPick_events : ∀ (l : List ProgressEvent),
    (l.map callOfEvent).filterMap nonTerminalPick = l.map (fun e => e.current) := by
  intro l
  induction l with
  | nil => rfl
  | cons e l ih => exact congrArg (fun t => e.current :: t) ih

/-- The `current` values of the per-table events are the 1-based indices. -/
theorem tableEvents_currents : ∀ (l : List String) (tot k : Nat),
    (tableEvents tot k l).map (fun e => e.current)
      = (List.range' k l.length).map Int.ofNat := by
  intro l
  induction l with
  | nil => intro tot k; rfl
  | cons t l ih =>
    intro tot k
    show (Int.ofNat k :: (tableEvents tot (k + 1) l).map (fun e => e.current))
        = (Int.ofNat k :: (List.range' (k + 1) l.length).map Int.ofNat)
    exact congrArg (fun xs => Int.ofNat k :: xs) (ih tot (k + 1))

/-- The non-terminal `current` sequence of a successful run, in closed form:
5 (connected), three zeros (starting / title page / table index), the 1-based
table indices, then 100 twice (saving, completed event). -/
theorem nonTermCurrents_success (ts : List String) (f : String) :
    nonTerminalCurrents ts (RunOutcome.success f)
      = 5 :: 0 :: 0 :: 0 ::
        (((List.range' 1 ts.length).map Int.ofNat) ++ [100, 100]) := by
  have h1 : nonTerminalCurrents ts (RunOutcome.success f)
      = List.filterMap nonTerminalPick (preCompletedCalls ts)
        ++ List.filterMap nonTerminalPick [completedCall f] := by
    unfold nonTerminalCurrents workerCalls
    rw [List.filterMap_append]
  have h2 : List.filterMap nonTerminalPick [completedCall f] = [] := rfl
  have h3 : List.filterMap nonTerminalPick (preCompletedCalls ts)
      = 5 :: (docGenEvents ts).map (fun e => e.current) := by
    show List.filterMap nonTerminalPick
        (connectedCall :: (docGenEvents ts).map callOfEvent) = _
    exact congrArg (fun t => (5 : Int) :: t) (filterMapPick_events (docGenEvents ts))
  have h4 : (docGenEvents ts).map (fun e => e.current)
      = 0 :: 0 :: 0 ::
          (((tableEvents ts.length 1 ts).map (fun e => e.current)) ++ [100, 100]) := by
    unfold docGenEvents openingEvents closingEvents
    simp [List.map_append]
  rw [h1, h2, h3, h4, tableEvents_currents, List.append_nil]

/-- Cast images of `range'` form a non-decreasing chain. -/
theorem chain_le_cast_range' : ∀ (n k : Nat),
    List.Chain' (fun a b : Int => a ≤ b)
      ((List.range' k n).map Int.ofNat) := by
  intro n
  induction n with
  | zero => intro k; exact List.chain'_nil
  | succ n ih =>
    intro k
    rw [List.range'_succ, List.map_cons]
    refine List.chain'_cons'.mpr ⟨?_, ih (k + 1)⟩
    intro y hy
    have hmem := List.mem_of_mem_head? hy
    obtain ⟨m, hm, rfl⟩ := List.mem_map.mp hmem
    have hle : k + 1 ≤ m := (List.mem_range'_1.mp hm).1
    exact Int.ofNat_le.mpr (Nat.le_of_succ_le hle)

/-- C2 counterexample: the worker's very first update writes `current = 5`
(`Connected to database`) and the generator's first callback event then
writes `current = 0`, so the `current` values of the non-terminal updates of
a successful one-table run are not monotonically non-decreasing. -/
theorem c2_counterexample :
    ¬ List.Chain' (fun a b : Int => a ≤ b)
      (nonTerminalCurrents ["T"] (RunOutcome.success "report.docx")) := by
  intro h
  rw [nonTermCurrents_success] at h
  exact absurd (List.chain'_cons.mp h).1 (by decide)

/-- C2 (amended): on a successful run over at most 100 tables, the
non-terminal `current` values are non-decreasing from the first
progress-callback event onward; the sole regression is the initial
`Connected to database` update's `current = 5` followed by the first
callback's `current = 0`. -/
theorem c2_currents_monotone_after_first (ts : List String) (f : String)
    (hN : ts.length ≤ 100) :
    (nonTerminalCurrents ts (RunOutcome.success f)).take 2 = [5, 0] ∧
    List.Chain' (fun a b : Int => a ≤ b)
      ((nonTerminalCurrents ts (RunOutcome.success f)).drop 1) := by
  rw [nonTermCurrents_success]
  refine ⟨rfl, ?_⟩
  show List.Chain' (fun a b : Int => a ≤ b)
    (0 :: 0 :: 0 :: (((List.range' 1 ts.length).map Int.ofNat) ++ [100, 100]))
  have htail : List.Chain' (fun a b : Int => a ≤ b)
      (((List.range' 1 ts.length).map Int.ofNat) ++ [100, 100]) := by
    refine List.chain'_append.mpr ⟨chain_le_cast_range' ts.length 1, ?_, ?_⟩
    · simp [List.chain'_cons, List.chain'_singleton]
    · intro x hx y hy
      have hxm := List.mem_of_mem_getLast? hx
      obtain ⟨m, hm, rfl⟩ := List.mem_map.mp hxm
      have hmlt : m < 1 + ts.length := (List.mem_range'_1.mp hm).2
      have hy100 : y = 100 := by
        simp only [List.head?_cons, Option.mem_def, Option.some.injEq] at hy
        exact hy.symm
      subst hy100
      have hm100 : m ≤ 100 := by omega
      exact Int.ofNat_le.mpr hm100
  have hzero : ∀ y ∈ (((List.range' 1 ts.length).map Int.ofNat)
      ++ [100, 100]).head?, (0 : Int) ≤ y := by
    intro y hy
    rcases List.mem_append.mp (List.mem_of_mem_head? hy) with hA | hB
    · obtain ⟨m, hm, rfl⟩ := List.mem_map.mp hA
      exact Int.ofNat_le.mpr (Nat.zero_le m)
    · have h100 : y = 100 := by simpa using hB
      omega
  refine List.chain'_cons'.mpr ⟨?_, List.chain'_cons'.mpr ⟨?_,
    List.chain'_cons'.mpr ⟨hzero, htail⟩⟩⟩
  · intro y hy
    simp only [List.head?_cons, Option.mem_def, Option.some.injEq] at hy
    omega
  · intro y hy
    simp only [List.head?_cons, Option.mem_def, Option.some.injEq] at hy
    omega

/-- Witness for C2 (amended) at a one-table run. -/
theorem c2_witness :
    (nonTerminalCurrents ["A"] (RunOutcome.success "r.docx")).take 2 = [5, 0] ∧
    List.Chain' (fun a b : Int => a ≤ b)
      ((nonTerminalCurrents ["A"] (RunOutcome.success "r.docx")).drop 1) :=
  c2_currents_monotone_after_first ["A"] "r.docx" (by decide)

/-- The per-table event list has one entry per table. -/
theorem tableEvents_length : ∀ (l : List String) (tot k : Nat),
    (tableEvents tot k l).length = l.length := by
  intro l
  induction l with
  | nil => intro tot k; rfl
  | cons t l ih =>
    intro tot k
    exact congrArg (fun n => n + 1) (ih tot (k + 1))

/-- The event at position `i` of the per-table loop started at index `k`. -/
theorem tableEvents_getElem : ∀ (l : List String) (tot k i : Nat) (hi : i < l.length),
    (tableEvents tot k l)[i]? = some
      { message := "Processing table " ++ toString (k + i) ++ "/" ++ toString tot ++
          ": " ++ l.get ⟨i, hi⟩
        current := Int.ofNat (k + i)
        total := Int.ofNat tot } := by
  intro l
  induction l with
  | nil => intro tot k i hi; exact absurd hi (Nat.not_lt_zero i)
  | cons t l ih =>
    intro tot k i hi
    cases i with
    | zero =>
      simp only [Nat.add_zero, tableEvents, List.getElem?_cons_zero,
        Int.ofNat_eq_natCast]
      rfl
    | succ n =>
      have hn : n < l.length := Nat.lt_of_succ_lt_succ hi
      have hstep : (tableEvents tot k (t :: l))[n + 1]?
          = (tableEvents tot (k + 1) l)[n]? := List.getElem?_cons_succ
      rw [hstep, ih tot (k + 1) n hn]
      have harith : k + 1 + n = k + (n + 1) := by omega
      rw [harith]
      rfl

/-- C8: the event sequence of one generation run over `N` selected tables has
exactly `N + 5` events: the three fixed opening milestones, then exactly one
event per table in list order — the event for the table at 0-based position
`i` carries a message naming the table, `current = i + 1` (the 1-based index)
and `total = N`, so a poller can compute `current/total` — then the two fixed
closing milestones. -/
theorem c8_one_event_per_table (ts : List String) (i : Nat) (hi : i < ts.length) :
    (docGenEvents ts).length = ts.length + 5 ∧
    (docGenEvents ts)[i + 3]? = some
      { message := "Processing table " ++ toString (i + 1) ++ "/" ++
          toString ts.length ++ ": " ++ ts.get ⟨i, hi⟩
        current := Int.ofNat (i + 1)
        total := Int.ofNat ts.length } ∧
    (docGenEvents ts)[0]? = some
      { message := "Starting documentation generation", current := 0, total := 100 } ∧
    (docGenEvents ts)[1]? = some
      { message := "Created title page", current := 0, total := 100 } ∧
    (docGenEvents ts)[2]? = some
      { message := "Created table index", current := 0, total := 100 } ∧
    (docGenEvents ts)[ts.length + 3]? = some
      { message := "Saving document...", current := 100, total := 100 } ∧
    (docGenEvents ts)[ts.length + 4]? = some
      { message := "Documentation completed", current := 100, total := 100 } := by
  refine ⟨?_, ?_, ?_, ?_, ?_, ?_, ?_⟩
  · simp only [docGenEvents, openingEvents, closingEvents, List.length_append,
      List.length_cons, List.length_nil, tableEvents_length]
    omega
  · unfold docGenEvents
    rw [List.getElem?_append_left
      (by simp only [openingEvents, List.length_append, List.length_cons,
        List.length_nil, tableEvents_length]; omega)]
    rw [List.getElem?_append_right
      (by simp only [openingEvents, List.length_cons, List.length_nil]; omega :
        openingEvents.length ≤ i + 3)]
    have hidx : i + 3 - openingEvents.length = i := by
      simp only [openingEvents, List.length_cons, List.length_nil]
      omega
    rw [hidx, tableEvents_getElem ts ts.length 1 i hi]
    have harith : 1 + i = i + 1 := Nat.add_comm 1 i
    rw [harith]
  · simp [docGenEvents, openingEvents]
  · simp [docGenEvents, openingEvents]
  · simp [docGenEvents, openingEvents]
  · unfold docGenEvents
    rw [List.getElem?_append_right
      (by simp only [openingEvents, List.length_append, List.length_cons,
        List.length_nil, tableEvents_length]; omega :
        (openingEvents ++ tableEvents ts.length 1 ts).length ≤ ts.length + 3)]
    have hidx : ts.length + 3 - (openingEvents ++ tableEvents ts.length 1 ts).length
        = 0 := by
      simp only [openingEvents, List.length_append, List.length_cons,
        List.length_nil, tableEvents_length]
      omega
    rw [hidx]
    simp [closingEvents]
  · unfold docGenEvents
    rw [List.getElem?_append_right
      (by simp only [openingEvents, List.length_append, List.length_cons,
        List.length_nil, tableEvents_length]; omega :
        (openingEvents ++ tableEvents ts.length 1 ts).length ≤ ts.length + 4)]
    have hidx : ts.length + 4 - (openingEvents ++ tableEvents ts.length 1 ts).length
        = 1 := by
      simp only [openingEvents, List.length_append, List.length_cons,
        List.length_nil, tableEvents_length]
      omega
    rw [hidx]
    simp [closingEvents]

/-- Witness for C8: the second table of a two-table run. -/
theorem c8_witness :
    (docGenEvents ["A", "B"]).length = 7 ∧
    (docGenEvents ["A", "B"])[4]? = some
      { message := "Processing table 2/2: B", current := 2, total := 2 } := by
  have h := c8_one_event_per_table ["A", "B"] 1 (by decide)
  exact ⟨h.1, h.2.1⟩

end AutoDBDoc
